import Mathlib

/-!
Shallow embedding of the blog-post CRUD service implemented in
src/backend/backend_app.py.

The persisted JSON file (blog_storage.json) is modelled as a store value
threaded through every handler: each handler returns the HTTP-level
response together with the store as it is on disk after the call.  A
handler that never calls save_posts returns the input store unchanged;
abort(...) before save_posts likewise returns the input store.

Request bodies (request.get_json()) are modelled as association lists of
string keys, so that a missing key, an empty value and an extra key are
all representable, exactly as for a Python dict with string values.
-/

namespace Masterblog

/-- A blog post as stored in the JSON file: the handlers only ever write
objects with the three integer/string fields id, title and content. -/
structure Post where
  id : Int
  title : String
  content : String
deriving DecidableEq

/-- Error responses of the service: validation models abort(400, msg),
notFound models abort(404, msg), and internal models an uncaught Python
exception, which Flask surfaces through the 500 error handler. -/
inductive Err where
  | validation : String → Err
  | notFound : String → Err
  | internal : Err
deriving DecidableEq

/-- A JSON request body: a finite map from string keys to string values,
modelled as an association list. -/
abbrev Body := List (String × String)

/-- Largest id seen so far, accumulator form: models Python's
max(...) over a running maximum. -/
def maxIdAux (a : Int) : List Post → Int
  | [] => a
  | p :: ps => maxIdAux (max a p.id) ps

/-- Models max((post["id"] for post in posts), default=0) in add_post:
the maximum of the ids, or 0 for an empty collection. -/
def maxId : List Post → Int
  | [] => 0
  | p :: ps => maxIdAux p.id ps

/-- Models the test field not in data or not data[field] from add_post
(for a string value, Python falsiness is emptiness). -/
def fieldMissing (data : Body) (f : String) : Bool :=
  match data.lookup f with
  | none => true
  | some v => v == ""

/-- Embedding of add_post: validate that title and content are present
and truthy, assign id max(existing ids, default 0) + 1, append the new
post, persist, and return the created post (201). -/
def addPost (posts : List Post) (data : Body) : Except Err Post × List Post :=
  let missing := ["title", "content"].filter (fieldMissing data)
  if missing.isEmpty then
    let newPost : Post :=
      { id := maxId posts + 1
        title := (data.lookup "title").getD ""
        content := (data.lookup "content").getD "" }
    (.ok newPost, posts ++ [newPost])
  else
    (.error (.validation ("Missing field: " ++ String.intercalate ", " missing)), posts)

/-- Embedding of delete_post: 404 when no post has the id, otherwise
remove every post with that id and persist. -/
def deletePost (posts : List Post) (postId : Int) : Except Err Unit × List Post :=
  match posts.find? (fun p => p.id == postId) with
  | none => (.error (.notFound "Post not found"), posts)
  | some _ => (.ok (), posts.filter (fun p => !(p.id == postId)))

/-- The enumerate loop of update_post: replace the first post whose id
equals postId by the freshly built post, returning none when no post
matches (the loop falls through to abort(404)). -/
def updateLoop (postId : Int) (t c : String) : List Post → Option (List Post)
  | [] => none
  | p :: ps =>
    if p.id == postId then some ({ id := postId, title := t, content := c } :: ps)
    else (updateLoop postId t c ps).map (fun l => p :: l)

/-- Embedding of update_post: 400 when the body is empty or lacks the
title or content key (the values are not inspected), otherwise replace
the first matching post in place, persist and return it; 404 when no
post matches. -/
def updatePost (posts : List Post) (postId : Int) (data : Body) :
    Except Err Post × List Post :=
  if data.isEmpty || (data.lookup "title").isNone || (data.lookup "content").isNone then
    (.error (.validation "Missing title or content"), posts)
  else
    let t := (data.lookup "title").getD ""
    let c := (data.lookup "content").getD ""
    match updateLoop postId t c posts with
    | some posts2 => (.ok { id := postId, title := t, content := c }, posts2)
    | none => (.error (.notFound "Post not found"), posts)

/-- Digit-string to number: the core of Python's int() on a string of
decimal digits. Returns none (a ValueError) when the string is empty or
holds a non-digit. -/
def parseDigits (cs : List Char) : Option Nat :=
  if cs = [] then none
  else if cs.all Char.isDigit then
    some (cs.foldl (fun n c => 10 * n + (c.toNat - 48)) 0)
  else none

/-- Models Python's int() applied to a query-parameter string: an
optional sign followed by decimal digits (surrounding whitespace and
underscore separators, which Python also tolerates, are not modelled).
none models the ValueError raised on any other string. -/
def pyInt (s : String) : Option Int :=
  match s.data with
  | c :: rest =>
    if c = Char.ofNat 45 then (parseDigits rest).map (fun n => -(n : Int))
    else if c = Char.ofNat 43 then (parseDigits rest).map (fun n => (n : Int))
    else (parseDigits (c :: rest)).map (fun n => (n : Int))
  | [] => none

/-- Models int(request.args.get(name, dflt)): an absent parameter yields
the integer default without parsing; a present one is parsed by int(). -/
def parseArgInt (arg : Option String) (dflt : Int) : Option Int :=
  match arg with
  | none => some dflt
  | some s => pyInt s

/-- Python list slicing l[start:stop] with integer bounds and no step:
negative bounds count from the end, and both bounds are clipped to the
list length. -/
def pySlice {α : Type} (l : List α) (start stop : Int) : List α :=
  let n : Int := l.length
  let s := if start < 0 then max (n + start) 0 else min start n
  let e := if stop < 0 then max (n + stop) 0 else min stop n
  (l.drop s.toNat).take (e - s).toNat

/-- Models p[sort_field] for the two field names that survive
validation in get_posts. -/
def sortKey (f : String) (p : Post) : String :=
  if f == "title" then p.title else p.content

/-- Strict lexicographic comparison of character sequences by code
point: Python compares str values exactly this way. -/
def lexLtB : List Char → List Char → Bool
  | [], [] => false
  | [], _ :: _ => true
  | _ :: _, [] => false
  | a :: as, b :: bs =>
    if a.toNat < b.toNat then true
    else if b.toNat < a.toNat then false
    else lexLtB as bs

/-- Python's a <= b on strings: not (b < a) in code-point lexicographic
order (case-sensitive, no normalization). -/
def pyStrLe (a b : String) : Bool := !(lexLtB b.data a.data)

/-- Keep a before b when sorting ascending by field f. -/
def ascLe (f : String) (a b : Post) : Prop := pyStrLe (sortKey f a) (sortKey f b) = true

/-- Keep a before b when sorting descending by field f. -/
def descLe (f : String) (a b : Post) : Prop := pyStrLe (sortKey f b) (sortKey f a) = true

instance (f : String) : DecidableRel (ascLe f) :=
  fun _ _ => inferInstanceAs (Decidable (_ = true))

instance (f : String) : DecidableRel (descLe f) :=
  fun _ _ => inferInstanceAs (Decidable (_ = true))

/-- Models posts_copy.sort(key=lambda p: p[sort_field], reverse=reverse):
Python's sort is stable, and a stable sort is extensionally determined
by the key order, so it is embedded as a stable insertion sort; reverse
sorting is the stable sort by the flipped comparison. -/
def pySortPosts (f : String) (reverse : Bool) (posts : List Post) : List Post :=
  if reverse then List.insertionSort (descLe f) posts
  else List.insertionSort (ascLe f) posts

/-- Python truthiness of request.args.get(name): false for an absent
parameter (None) and for the empty string. -/
def truthyOpt : Option String → Bool
  | none => false
  | some s => s != ""

/-- Embedding of get_posts: validate sort/direction, stably sort a copy
when a sort field is given, then slice out the requested page. The
store on disk is never written by this handler. -/
def getPosts (posts : List Post) (sortArg dirArg pageArg limitArg : Option String) :
    Except Err (List Post) × List Post :=
  let direction := dirArg.getD "asc"
  if truthyOpt sortArg && !(["title", "content"].contains (sortArg.getD "")) then
    (.error (.validation "Invalid sort field"), posts)
  else if !(["asc", "desc"].contains direction) then
    (.error (.validation "Invalid sort direction"), posts)
  else
    let postsCopy :=
      if truthyOpt sortArg then pySortPosts (sortArg.getD "") (direction == "desc") posts
      else posts
    match parseArgInt pageArg 1, parseArgInt limitArg 10 with
    | some page, some limit =>
      (.ok (pySlice postsCopy ((page - 1) * limit) ((page - 1) * limit + limit)), posts)
    | _, _ => (.error .internal, posts)

/-- Models Python's str.lower(): lower-case every character (the
Unicode special cases outside the simple one-to-one mapping are not
modelled). -/
def pyLower (s : String) : String := ⟨s.data.map Char.toLower⟩

/-- Models the Python substring test a in b on strings: a occurs as a
contiguous substring of b. -/
def pyIn (needle hay : String) : Bool :=
  decide (needle.data <:+: hay.data)

/-- Case-insensitive substring relation used by the specification: the
lower-cased needle occurs in the lower-cased haystack. -/
def ciSubstr (needle hay : String) : Prop :=
  (pyLower needle).data <:+: (pyLower hay).data

/-- Embedding of search_posts: lower-case both query parameters
(default empty) and keep, in collection order, the posts matched by a
non-empty title query in the lowered title or a non-empty content query
in the lowered content. Never writes the store. -/
def searchPosts (posts : List Post) (titleArg contentArg : Option String) :
    Except Err (List Post) × List Post :=
  let titleQuery := pyLower (titleArg.getD "")
  let contentQuery := pyLower (contentArg.getD "")
  let results := posts.filter (fun post =>
    (if titleQuery != "" then pyIn titleQuery (pyLower post.title) else false)
    || (if contentQuery != "" then pyIn contentQuery (pyLower post.content) else false))
  (.ok results, posts)

/-! ## Sample data

The two seed posts used by the repository (and by the spec's examples);
they serve as concrete inputs for witnesses and counterexamples. -/

/-- First sample post of the seed collection. -/
def p1 : Post := { id := 1, title := "First post", content := "This is the first post." }

/-- Second sample post of the seed collection. -/
def p2 : Post := { id := 2, title := "Second post", content := "This is the second post." }

/-! ## Helper lemmas about the id maximum -/

theorem le_maxIdAux (a : Int) (posts : List Post) : a ≤ maxIdAux a posts := by
  induction posts generalizing a with
  | nil => simp [maxIdAux]
  | cons p ps ih => exact le_trans (le_max_left a p.id) (ih (max a p.id))

theorem mem_le_maxIdAux (a : Int) (posts : List Post) (p : Post) (hp : p ∈ posts) :
    p.id ≤ maxIdAux a posts := by
  induction posts generalizing a with
  | nil => cases hp
  | cons q ps ih =>
    rcases List.mem_cons.mp hp with h | h
    · subst h
      exact le_trans (le_max_right a p.id) (le_maxIdAux _ _)
    · exact ih _ h

theorem mem_le_maxId (posts : List Post) (p : Post) (hp : p ∈ posts) :
    p.id ≤ maxId posts := by
  cases posts with
  | nil => cases hp
  | cons q ps =>
    rw [maxId]
    rcases List.mem_cons.mp hp with h | h
    · subst h
      exact le_maxIdAux _ _
    · exact mem_le_maxIdAux _ _ _ h

/-! ## C1: creation semantics -/

/-- C1: for every store state, create with a valid non-empty title and
content assigns the new post the id max(existing ids, default 0) + 1,
appends it at the end of the collection, persists the collection, and
returns the created post. -/
theorem addPost_creates (posts : List Post) (data : Body) (t c : String)
    (ht : data.lookup "title" = some t) (hc : data.lookup "content" = some c)
    (htne : t ≠ "") (hcne : c ≠ "") :
    addPost posts data =
      (.ok { id := maxId posts + 1, title := t, content := c },
       posts ++ [{ id := maxId posts + 1, title := t, content := c }]) := by
  unfold addPost fieldMissing
  simp [List.filter_cons, ht, hc, htne, hcne]

/-- Witness for C1 on the seed collection: creating a third post yields
id 2 + 1 = 3, appended at the end. -/
theorem addPost_creates_witness :
    addPost [p1, p2] [("title", "Third"), ("content", "Body")] =
      (.ok { id := 3, title := "Third", content := "Body" },
       [p1, p2, { id := 3, title := "Third", content := "Body" }]) := by
  have h := addPost_creates [p1, p2] [("title", "Third"), ("content", "Body")]
      "Third" "Body" rfl rfl (by decide) (by decide)
  rw [h]
  rfl

/-! ## Helper lemmas about the update loop -/

theorem updateLoop_map_id (postId : Int) (t c : String) :
    ∀ posts posts2, updateLoop postId t c posts = some posts2 →
      posts2.map Post.id = posts.map Post.id := by
  intro posts
  induction posts with
  | nil => intro posts2 h; simp [updateLoop] at h
  | cons p ps ih =>
    intro posts2 h
    rw [updateLoop] at h
    split at h
    case isTrue hp =>
      cases h
      simp only [List.map_cons]
      rw [show postId = p.id from (beq_iff_eq.mp hp).symm]
    case isFalse hp =>
      rcases Option.map_eq_some'.mp h with ⟨l, hl, rfl⟩
      simp only [List.map_cons, ih l hl]

/-! ## C8: atomicity of the mutating handlers -/

/-- C8: every create, update, and delete either fully succeeds or fails
with an error leaving the persisted collection exactly as it was. -/
theorem mutations_atomic (posts : List Post) (data : Body) (postId : Int) :
    (∀ e, (addPost posts data).1 = .error e → (addPost posts data).2 = posts)
    ∧ (∀ e, (updatePost posts postId data).1 = .error e →
        (updatePost posts postId data).2 = posts)
    ∧ (∀ e, (deletePost posts postId).1 = .error e →
        (deletePost posts postId).2 = posts) := by
  refine ⟨?_, ?_, ?_⟩
  · intro e h
    cases hm : (["title", "content"].filter (fieldMissing data)).isEmpty with
    | true => rw [addPost] at h; simp [hm] at h
    | false => rw [addPost]; simp [hm]
  · intro e h
    cases hv : (data.isEmpty || (data.lookup "title").isNone
        || (data.lookup "content").isNone) with
    | true => rw [updatePost]; simp [hv]
    | false =>
      rw [updatePost] at h ⊢
      simp only [hv, Bool.false_eq_true, if_false] at h ⊢
      cases hl : updateLoop postId ((data.lookup "title").getD "")
          ((data.lookup "content").getD "") posts with
      | some l => simp [hl] at h
      | none => simp [hl]
  · intro e h
    cases hf : posts.find? (fun p => p.id == postId) with
    | none => rw [deletePost]; simp [hf]
    | some q => rw [deletePost] at h; simp [hf] at h

/-- Witness for C8: concrete failing calls (empty body, unknown id) all
leave the store exactly as it was. -/
theorem mutations_atomic_witness :
    (addPost [p1] []).2 = [p1]
    ∧ (updatePost [p1] 1 []).2 = [p1]
    ∧ (deletePost [p1] 2).2 = [p1] := by
  obtain ⟨h1, h2, h3⟩ := mutations_atomic [p1] [] 1
  refine ⟨h1 (.validation "Missing field: title, content") rfl,
    h2 (.validation "Missing title or content") rfl, ?_⟩
  obtain ⟨-, -, h3'⟩ := mutations_atomic [p1] [] 2
  exact h3' (.notFound "Post not found") rfl

/-! ## C9: distinct ids are an invariant -/

/-- C9: if every post in the store has a distinct id, then after any
create, update, or delete every post still has a distinct id. -/
theorem ids_nodup_invariant (posts : List Post) (data : Body) (postId : Int)
    (h : (posts.map Post.id).Nodup) :
    (((addPost posts data).2).map Post.id).Nodup
    ∧ (((updatePost posts postId data).2).map Post.id).Nodup
    ∧ (((deletePost posts postId).2).map Post.id).Nodup := by
  refine ⟨?_, ?_, ?_⟩
  · cases hm : (["title", "content"].filter (fieldMissing data)).isEmpty with
    | false => rw [addPost]; simpa [hm] using h
    | true =>
      rw [addPost]
      simp only [hm, if_true, List.map_append, List.map_cons, List.map_nil]
      rw [List.nodup_append]
      refine ⟨h, List.nodup_singleton _, ?_⟩
      intro x hx hx'
      simp only [List.mem_singleton] at hx'
      subst hx'
      rcases List.mem_map.mp hx with ⟨p, hp, hpid⟩
      have := mem_le_maxId posts p hp
      omega
  · cases hv : (data.isEmpty || (data.lookup "title").isNone
        || (data.lookup "content").isNone) with
    | true => rw [updatePost]; simpa [hv] using h
    | false =>
      rw [updatePost]
      simp only [hv, Bool.false_eq_true, if_false]
      cases hl : updateLoop postId ((data.lookup "title").getD "")
          ((data.lookup "content").getD "") posts with
      | none => simpa [hl] using h
      | some l =>
        simp only [hl]
        rwa [updateLoop_map_id postId _ _ posts l hl]
  · cases hf : posts.find? (fun p => p.id == postId) with
    | none => rw [deletePost]; simpa [hf] using h
    | some q =>
      rw [deletePost]
      simp only [hf]
      exact ((List.filter_sublist posts).map Post.id).nodup h

/-- Witness for C9 on the seed collection, whose ids 1, 2 are distinct:
all three mutations keep the ids distinct. -/
theorem ids_nodup_invariant_witness :
    (((addPost [p1, p2] [("title", "T"), ("content", "C")]).2).map Post.id).Nodup
    ∧ (((updatePost [p1, p2] 1 [("title", "T"), ("content", "C")]).2).map Post.id).Nodup
    ∧ (((deletePost [p1, p2] 1).2).map Post.id).Nodup :=
  ids_nodup_invariant [p1, p2] [("title", "T"), ("content", "C")] 1 (by decide)

theorem updateLoop_found (postId : Int) (t c : String) :
    ∀ posts : List Post, (∃ p ∈ posts, p.id = postId) →
      ∃ i, ∃ hlt : i < posts.length, (posts.get ⟨i, hlt⟩).id = postId ∧
        updateLoop postId t c posts =
          some (posts.set i { id := postId, title := t, content := c }) := by
  intro posts
  induction posts with
  | nil => rintro ⟨p, hp, -⟩; cases hp
  | cons q ps ih =>
    rintro ⟨p, hp, hpid⟩
    by_cases hq : q.id = postId
    · refine ⟨0, by simp, by simpa using hq, ?_⟩
      rw [updateLoop, if_pos (beq_iff_eq.mpr hq)]
      rfl
    · have hp' : p ∈ ps := by
        rcases List.mem_cons.mp hp with h | h
        · subst h; exact absurd hpid hq
        · exact h
      obtain ⟨i, hlt, hid, hloop⟩ := ih ⟨p, hp', hpid⟩
      refine ⟨i + 1, by simpa using Nat.succ_lt_succ hlt, by simpa using hid, ?_⟩
      rw [updateLoop, if_neg (by simp [hq]), hloop]
      rfl

/-! ## C7: a successful update changes exactly the matched post -/

/-- C7: for every store containing a post with the given id, a
successful update leaves that post's id and position unchanged, changes
exactly its title and content, and leaves every other post (and the
collection length) unchanged. -/
theorem updatePost_frame (posts : List Post) (postId : Int) (data : Body) (t c : String)
    (ht : data.lookup "title" = some t) (hc : data.lookup "content" = some c)
    (hfound : ∃ p ∈ posts, p.id = postId) :
    ∃ i, ∃ hlt : i < posts.length,
      (posts.get ⟨i, hlt⟩).id = postId ∧
      updatePost posts postId data =
        (.ok { id := postId, title := t, content := c },
         posts.set i { id := postId, title := t, content := c }) ∧
      (posts.set i { id := postId, title := t, content := c }).length = posts.length ∧
      ∀ j, j ≠ i →
        (posts.set i { id := postId, title := t, content := c }).get? j = posts.get? j := by
  obtain ⟨i, hlt, hid, hloop⟩ := updateLoop_found postId t c posts hfound
  have hne : data.isEmpty = false := by
    cases data with
    | nil => simp [List.lookup] at ht
    | cons _ _ => rfl
  refine ⟨i, hlt, hid, ?_, by simp, ?_⟩
  · rw [updatePost]
    simp only [hne, ht, hc, Option.isNone_some, Bool.or_false, Bool.false_or,
      Bool.false_eq_true, if_false, Option.getD_some]
    rw [hloop]
  · intro j hj
    rw [List.get?_eq_getElem?, List.get?_eq_getElem?]
    exact List.getElem?_set_ne (fun h => hj h.symm)

/-- Witness for C7: updating post 2 of the seed collection replaces
exactly the second entry, preserving its id and position. -/
theorem updatePost_frame_witness :
    ∃ i, ∃ hlt : i < ([p1, p2] : List Post).length,
      (([p1, p2] : List Post).get ⟨i, hlt⟩).id = 2 ∧
      updatePost [p1, p2] 2 [("title", "New"), ("content", "Text")] =
        (.ok { id := 2, title := "New", content := "Text" },
         ([p1, p2] : List Post).set i { id := 2, title := "New", content := "Text" }) ∧
      (([p1, p2] : List Post).set i { id := 2, title := "New", content := "Text" }).length
        = ([p1, p2] : List Post).length ∧
      ∀ j, j ≠ i →
        (([p1, p2] : List Post).set i { id := 2, title := "New", content := "Text" }).get? j
          = ([p1, p2] : List Post).get? j :=
  updatePost_frame [p1, p2] 2 [("title", "New"), ("content", "Text")] "New" "Text"
    rfl rfl ⟨p2, by simp, rfl⟩

/-! ## C3: update validation rejects only missing keys, not empty values -/

/-- Counterexample for C3: update_post accepts a body whose title and
content are both present but empty, stores the empty strings, and
succeeds, so an empty (or merely untrimmed) value is not a
ValidationError. -/
theorem updatePost_empty_accepted :
    updatePost [p1] 1 [("title", ""), ("content", "")] =
      (.ok { id := 1, title := "", content := "" },
       [{ id := 1, title := "", content := "" }]) := by
  rfl

/-- C3 amended: update fails with ValidationError exactly when the body
lacks the title key or the content key (an empty body lacks both); the
values themselves are never inspected, so empty or whitespace values are
accepted. On a validation failure the stored collection is unchanged. -/
theorem updatePost_validation (posts : List Post) (postId : Int) (data : Body) :
    (data.lookup "title" = none ∨ data.lookup "content" = none →
      updatePost posts postId data = (.error (.validation "Missing title or content"), posts))
    ∧ (∀ t c, data.lookup "title" = some t → data.lookup "content" = some c →
        ∀ m, (updatePost posts postId data).1 ≠ .error (.validation m)) := by
  constructor
  · intro hmiss
    rw [updatePost]
    have hc : (data.isEmpty || (data.lookup "title").isNone
        || (data.lookup "content").isNone) = true := by
      rcases hmiss with h | h <;> simp [h]
    simp [hc]
  · intro t c ht hc m
    have hne : data.isEmpty = false := by
      cases data with
      | nil => simp [List.lookup] at ht
      | cons _ _ => rfl
    rw [updatePost]
    simp only [hne, ht, hc, Option.isNone_some, Bool.or_false, Bool.or_self,
      Bool.false_eq_true, if_false, Option.getD_some]
    cases hl : updateLoop postId t c posts <;> simp [hl]

/-- Witness for C3 amended: a body missing the title key is rejected
with the store unchanged, while a body carrying both keys (even with
empty values) never yields a validation error. -/
theorem updatePost_validation_witness :
    updatePost [p1] 1 [("content", "b")] =
      (.error (.validation "Missing title or content"), [p1])
    ∧ ∀ m, (updatePost [p1] 1 [("title", ""), ("content", "")]).1
        ≠ .error (.validation m) := by
  constructor
  · exact (updatePost_validation [p1] 1 [("content", "b")]).1 (Or.inl rfl)
  · exact fun m => (updatePost_validation [p1] 1 [("title", ""), ("content", "")]).2
      "" "" rfl rfl m

/-! ## C2: page and limit are not validated -/

/-- Counterexample for C2: on the seed collection, page "-1" with limit
"1" is processed through Python slice semantics and returns the first
post (no error at all), and the non-numeric page "x" surfaces as an
internal 500 error rather than a ValidationError/400. -/
theorem getPosts_page_not_rejected :
    (getPosts [p1, p2] none none (some "-1") (some "1")).1 = .ok [p1]
    ∧ (getPosts [p1, p2] none none (some "x") (some "1")).1 = .error .internal :=
  ⟨rfl, rfl⟩

/-- C2 amended: get_posts performs no validation of page or limit: a
non-positive (or any other numeric) page is processed, the returned
window being the Python slice posts[(page-1)*limit : (page-1)*limit +
limit] (negative bounds counting from the end of the list), while a
non-numeric page raises an uncaught ValueError surfaced as a 500
internal error, not a ValidationError/400. -/
theorem getPosts_page_limit_not_validated (posts : List Post) (ps ls : String)
    (page limit : Int) (hp : pyInt ps = some page) (hl : pyInt ls = some limit)
    (_hpage : page ≤ 0) :
    (getPosts posts none none (some ps) (some ls)).1 =
      .ok (pySlice posts ((page - 1) * limit) ((page - 1) * limit + limit))
    ∧ ∀ s, pyInt s = none →
        (getPosts posts none none (some s) (some ls)).1 = .error .internal := by
  constructor
  · rw [getPosts]
    simp [truthyOpt, parseArgInt, hp, hl]
  · intro s hs
    rw [getPosts]
    simp [truthyOpt, parseArgInt, hs]

/-- Witness for C2 amended, on the seed collection: page "-1" is
processed into the slice window, and page "x" gives the internal
error. -/
theorem getPosts_page_limit_not_validated_witness :
    (getPosts [p1, p2] none none (some "-1") (some "1")).1 =
      .ok (pySlice [p1, p2] ((-1 - 1) * 1) ((-1 - 1) * 1 + 1))
    ∧ (getPosts [p1, p2] none none (some "z") (some "1")).1 = .error .internal := by
  refine ⟨(getPosts_page_limit_not_validated [p1, p2] "-1" "1" (-1) 1 rfl rfl
    (by decide)).1, ?_⟩
  exact (getPosts_page_limit_not_validated [p1, p2] "-1" "1" (-1) 1 rfl rfl
    (by decide)).2 "z" rfl

/-! ## C4: the pagination window -/

/-- With non-negative bounds, the Python slice l[start : start+limit]
is exactly the drop/take window clipped to the available length. -/
theorem pySlice_nonneg {α : Type} (l : List α) (start limit : Int)
    (hs : 0 ≤ start) (hl : 0 ≤ limit) :
    pySlice l start (start + limit) = (l.drop start.toNat).take limit.toNat := by
  simp only [pySlice]
  rw [if_neg (by omega), if_neg (by omega)]
  rcases le_or_lt (l.length : Int) start with hcase | hcase
  · rw [min_eq_right hcase, min_eq_right (by omega : (l.length : Int) ≤ start + limit)]
    rw [List.drop_eq_nil_of_le (by omega : l.length ≤ ((l.length : Int)).toNat),
      List.drop_eq_nil_of_le (by omega : l.length ≤ start.toNat)]
    simp
  · rw [min_eq_left (le_of_lt hcase)]
    rcases le_or_lt (start + limit) (l.length : Int) with hc2 | hc2
    · rw [min_eq_left hc2]
      congr 1
      omega
    · rw [min_eq_right (le_of_lt hc2)]
      rw [List.take_of_length_le (by rw [List.length_drop]; omega),
        List.take_of_length_le (by rw [List.length_drop]; omega)]

/-- C4: for every post sequence and every page >= 1 and limit >= 1 (with
valid sort arguments), list returns exactly the elements at indices
[(page-1)*limit, (page-1)*limit+limit) of the possibly sorted sequence,
clipped to the available length, and an out-of-range page yields an
empty sequence; the window is taken from the sorted sequence when a
sort field is given. -/
theorem getPosts_window (posts : List Post) (sortArg dirArg : Option String)
    (ps ls : String) (page limit : Int)
    (hp : pyInt ps = some page) (hl : pyInt ls = some limit)
    (hpage : 1 ≤ page) (hlimit : 1 ≤ limit)
    (hsort : truthyOpt sortArg = true → sortArg = some "title" ∨ sortArg = some "content")
    (hdir : dirArg.getD "asc" = "asc" ∨ dirArg.getD "asc" = "desc") :
    (getPosts posts sortArg dirArg (some ps) (some ls)).1 =
      .ok (((if truthyOpt sortArg then
              pySortPosts (sortArg.getD "") (dirArg.getD "asc" == "desc") posts
            else posts).drop ((page - 1) * limit).toNat).take limit.toNat)
    ∧ ((if truthyOpt sortArg then
          pySortPosts (sortArg.getD "") (dirArg.getD "asc" == "desc") posts
        else posts).length ≤ ((page - 1) * limit).toNat →
        (getPosts posts sortArg dirArg (some ps) (some ls)).1 = .ok []) := by
  have hcond1 : (truthyOpt sortArg
      && !(["title", "content"].contains (sortArg.getD ""))) = false := by
    cases htr : truthyOpt sortArg with
    | false => rfl
    | true =>
      rcases hsort htr with h | h <;> subst h <;> rfl
  have hcond2 : (!(["asc", "desc"].contains (dirArg.getD "asc"))) = false := by
    rcases hdir with h | h <;> rw [h] <;> rfl
  have hmain : (getPosts posts sortArg dirArg (some ps) (some ls)).1 =
      .ok (((if truthyOpt sortArg then
              pySortPosts (sortArg.getD "") (dirArg.getD "asc" == "desc") posts
            else posts).drop ((page - 1) * limit).toNat).take limit.toNat) := by
    rw [getPosts]
    simp only [hcond1, hcond2, Bool.false_eq_true, if_false, parseArgInt, hp, hl]
    rw [pySlice_nonneg _ _ _ (mul_nonneg (by omega) (by omega)) (by omega)]
  refine ⟨hmain, fun hout => ?_⟩
  rw [hmain, List.drop_eq_nil_of_le hout, List.take_nil]

/-- Witness for C4 on the seed collection: page 2 with limit 1 returns
exactly the second post, and page 3 with limit 1 is out of range and
returns the empty sequence. -/
theorem getPosts_window_witness :
    ((getPosts [p1, p2] none none (some "2") (some "1")).1 = .ok [p2]
      ∧ (getPosts [p1, p2] none none (some "2") (some "1")).1 =
        .ok ((([p1, p2] : List Post).drop 1).take 1))
    ∧ (getPosts [p1, p2] none none (some "3") (some "1")).1 = .ok [] := by
  have h2 := getPosts_window [p1, p2] none none "2" "1" 2 1 rfl rfl
    (by decide) (by decide) (fun h => by cases h) (Or.inl rfl)
  have h3 := getPosts_window [p1, p2] none none "3" "1" 3 1 rfl rfl
    (by decide) (by decide) (fun h => by cases h) (Or.inl rfl)
  refine ⟨⟨?_, ?_⟩, ?_⟩
  · rw [h2.1]; rfl
  · rw [h2.1]; rfl
  · exact h3.2 (by decide)

/-! ## C5: sorting is a stable, order-correct permutation

A stable sort keeps elements with equal keys in their original relative
order; equivalently, filtering the output by any one key value gives
the same list as filtering the input. The two lemmas below prove this
filter characterisation for insertion sort. -/

theorem filter_orderedInsert {α : Type} (r : α → α → Prop) [DecidableRel r]
    (q : α → Bool) (x : α) (l : List α)
    (hq : q x = true → ∀ y ∈ l, ¬ r x y → q y = false) :
    (List.orderedInsert r x l).filter q =
      if q x then x :: l.filter q else l.filter q := by
  induction l with
  | nil =>
    simp [List.filter_cons]
  | cons y l ih =>
    rw [List.orderedInsert]
    by_cases hxy : r x y
    · rw [if_pos hxy, List.filter_cons]
    · rw [if_neg hxy]
      have ih' := ih (fun hx z hz hr => hq hx z (List.mem_cons_of_mem _ hz) hr)
      cases hqx : q x with
      | false =>
        rw [List.filter_cons, ih']
        simp only [List.filter_cons, hqx, Bool.false_eq_true, if_false]
      | true =>
        have hqy : q y = false := hq hqx y (List.mem_cons_self y l) hxy
        rw [List.filter_cons, ih']
        simp only [List.filter_cons, hqx, hqy, if_true, Bool.false_eq_true, if_false]

theorem filter_insertionSort {α : Type} (r : α → α → Prop) [DecidableRel r]
    (q : α → Bool) (hq : ∀ a b, q a = true → q b = true → r a b) (l : List α) :
    (List.insertionSort r l).filter q = l.filter q := by
  induction l with
  | nil => rfl
  | cons x l ih =>
    rw [List.insertionSort, filter_orderedInsert, ih, List.filter_cons]
    intro hx y hy hr
    cases hqy : q y with
    | false => rfl
    | true => exact absurd (hq x y hx hqy) hr

theorem lexLtB_irrefl : ∀ l, lexLtB l l = false
  | [] => rfl
  | a :: as => by
    rw [lexLtB]
    simp [Nat.lt_irrefl, lexLtB_irrefl as]

theorem lexLtB_asymm : ∀ l1 l2, lexLtB l1 l2 = true → lexLtB l2 l1 = false
  | [], [] => by simp [lexLtB]
  | [], _ :: _ => fun _ => rfl
  | _ :: _, [] => by simp [lexLtB]
  | a :: as, b :: bs => by
    intro h
    rw [lexLtB] at h ⊢
    by_cases hab : a.toNat < b.toNat
    · rw [if_neg (by omega), if_pos hab]
    · rw [if_neg hab] at h
      by_cases hba : b.toNat < a.toNat
      · rw [if_pos hba] at h
        cases h
      · rw [if_neg hba] at h
        rw [if_neg hba, if_neg hab]
        exact lexLtB_asymm as bs h

theorem lexLtB_trans : ∀ l1 l2 l3, lexLtB l1 l2 = true → lexLtB l2 l3 = true →
    lexLtB l1 l3 = true := by
  intro l1
  induction l1 with
  | nil =>
    intro l2 l3 h1 h2
    cases l2 with
    | nil => simp [lexLtB] at h1
    | cons b bs =>
      cases l3 with
      | nil => simp [lexLtB] at h2
      | cons c cs => rfl
  | cons a as ih =>
    intro l2 l3 h1 h2
    cases l2 with
    | nil => simp [lexLtB] at h1
    | cons b bs =>
      cases l3 with
      | nil => simp [lexLtB] at h2
      | cons c cs =>
        rw [lexLtB] at h1 h2 ⊢
        by_cases hab : a.toNat < b.toNat
        · by_cases hbc : b.toNat < c.toNat
          · rw [if_pos (by omega)]
          · rw [if_neg hbc] at h2
            by_cases hcb : c.toNat < b.toNat
            · rw [if_pos hcb] at h2
              cases h2
            · rw [if_pos (by omega)]
        · rw [if_neg hab] at h1
          by_cases hba : b.toNat < a.toNat
          · rw [if_pos hba] at h1
            cases h1
          · rw [if_neg hba] at h1
            by_cases hbc : b.toNat < c.toNat
            · rw [if_pos (by omega)]
            · rw [if_neg hbc] at h2
              by_cases hcb : c.toNat < b.toNat
              · rw [if_pos hcb] at h2
                cases h2
              · rw [if_neg hcb] at h2
                rw [if_neg (by omega), if_neg (by omega)]
                exact ih bs cs h1 h2

theorem lexLtB_connex : ∀ l1 l2, lexLtB l1 l2 = false →
    lexLtB l2 l1 = true ∨ l1 = l2 := by
  intro l1
  induction l1 with
  | nil =>
    intro l2 h
    cases l2 with
    | nil => exact Or.inr rfl
    | cons b bs => simp [lexLtB] at h
  | cons a as ih =>
    intro l2 h
    cases l2 with
    | nil => exact Or.inl rfl
    | cons b bs =>
      rw [lexLtB] at h
      by_cases hab : a.toNat < b.toNat
      · rw [if_pos hab] at h
        cases h
      · rw [if_neg hab] at h
        by_cases hba : b.toNat < a.toNat
        · exact Or.inl (by rw [lexLtB, if_pos hba])
        · rw [if_neg hba] at h
          rcases ih bs h with h2 | h2
          · refine Or.inl ?_
            rw [lexLtB, if_neg (by omega), if_neg (by omega)]
            exact h2
          · refine Or.inr ?_
            have htn : a.toNat = b.toNat := by omega
            have hab' : a = b := by
              rw [← Char.ofNat_toNat a, ← Char.ofNat_toNat b, htn]
            rw [hab', h2]

theorem pyStrLe_refl (a : String) : pyStrLe a a = true := by
  rw [pyStrLe, lexLtB_irrefl]
  rfl

theorem pyStrLe_total (a b : String) : pyStrLe a b = true ∨ pyStrLe b a = true := by
  rw [pyStrLe, pyStrLe]
  cases h : lexLtB b.data a.data with
  | false => exact Or.inl rfl
  | true => exact Or.inr (by rw [lexLtB_asymm _ _ h]; rfl)

theorem pyStrLe_trans (a b c : String) (h1 : pyStrLe a b = true)
    (h2 : pyStrLe b c = true) : pyStrLe a c = true := by
  rw [pyStrLe] at h1 h2 ⊢
  rw [Bool.not_eq_eq_eq_not, Bool.not_true] at h1 h2 ⊢
  by_contra hca
  rw [Bool.not_eq_false] at hca
  rcases lexLtB_connex _ _ h2 with h | h
  · have := lexLtB_trans _ _ _ h hca
    rw [this] at h1
    cases h1
  · rw [h] at hca
    rw [hca] at h1
    cases h1

theorem pySortPosts_asc_sorted (f : String) (posts : List Post) :
    (pySortPosts f false posts).Sorted (ascLe f) := by
  haveI : IsTotal Post (ascLe f) := ⟨fun a b => pyStrLe_total _ _⟩
  haveI : IsTrans Post (ascLe f) := ⟨fun a b c h1 h2 => pyStrLe_trans _ _ _ h1 h2⟩
  rw [pySortPosts, if_neg (by simp)]
  exact List.sorted_insertionSort _ _

theorem pySortPosts_desc_sorted (f : String) (posts : List Post) :
    (pySortPosts f true posts).Sorted (descLe f) := by
  haveI : IsTotal Post (descLe f) := ⟨fun a b => pyStrLe_total _ _⟩
  haveI : IsTrans Post (descLe f) := ⟨fun a b c h1 h2 => pyStrLe_trans _ _ _ h2 h1⟩
  rw [pySortPosts, if_pos rfl]
  exact List.sorted_insertionSort _ _

theorem pySortPosts_perm (f : String) (reverse : Bool) (posts : List Post) :
    (pySortPosts f reverse posts).Perm posts := by
  rw [pySortPosts]
  cases reverse <;> simp <;> exact List.perm_insertionSort _ _

theorem pySortPosts_stable (f : String) (reverse : Bool) (posts : List Post)
    (k : String) :
    (pySortPosts f reverse posts).filter (fun p => sortKey f p == k)
      = posts.filter (fun p => sortKey f p == k) := by
  rw [pySortPosts]
  cases reverse with
  | false =>
    rw [if_neg (by simp)]
    refine filter_insertionSort _ _ (fun a b ha hb => ?_) posts
    show pyStrLe (sortKey f a) (sortKey f b) = true
    rw [beq_iff_eq.mp ha, beq_iff_eq.mp hb]
    exact pyStrLe_refl k
  | true =>
    rw [if_pos rfl]
    refine filter_insertionSort _ _ (fun a b ha hb => ?_) posts
    show pyStrLe (sortKey f b) (sortKey f a) = true
    rw [beq_iff_eq.mp ha, beq_iff_eq.mp hb]
    exact pyStrLe_refl k

/-- C5: with a sort field of title or content and a valid direction,
list draws its window from a stable sort of all posts by that field
under the case-sensitive lexical string order (non-decreasing for asc,
non-increasing for desc), and the stored collection is returned
unchanged by the read. Stability is expressed by the filter
characterisation: restricting the sorted sequence to any one key value
reproduces the original collection order. -/
theorem getPosts_sortField (posts : List Post) (f d : String)
    (hf : f = "title" ∨ f = "content") (hd : d = "asc" ∨ d = "desc")
    (ps ls : String) (page limit : Int)
    (hp : pyInt ps = some page) (hl : pyInt ls = some limit) :
    getPosts posts (some f) (some d) (some ps) (some ls) =
      (.ok (pySlice (pySortPosts f (d == "desc") posts)
        ((page - 1) * limit) ((page - 1) * limit + limit)), posts)
    ∧ (pySortPosts f (d == "desc") posts).Perm posts
    ∧ (d = "asc" → (pySortPosts f false posts).Sorted (ascLe f))
    ∧ (d = "desc" → (pySortPosts f true posts).Sorted (descLe f))
    ∧ ∀ k, (pySortPosts f (d == "desc") posts).filter (fun p => sortKey f p == k)
        = posts.filter (fun p => sortKey f p == k) := by
  refine ⟨?_, pySortPosts_perm f _ posts,
    fun _ => pySortPosts_asc_sorted f posts,
    fun _ => pySortPosts_desc_sorted f posts,
    pySortPosts_stable f _ posts⟩
  rcases hf with rfl | rfl <;> rcases hd with rfl | rfl <;>
    simp only [getPosts] <;>
    rw [if_neg (by decide)] <;>
    rw [if_neg (by decide)] <;>
    rw [if_pos (by decide)] <;>
    simp only [parseArgInt, hp, hl, Option.getD_some]

/-- Witness for C5: sorting the seed collection by title descending
returns the posts in reverse title order, a permutation of the store,
non-increasing on titles, stable, with the store unchanged. -/
theorem getPosts_sortField_witness :
    (getPosts [p1, p2] (some "title") (some "desc") (some "1") (some "10") =
      (.ok (pySlice (pySortPosts "title" ("desc" == "desc") [p1, p2])
        ((1 - 1) * 10) ((1 - 1) * 10 + 10)), [p1, p2])
    ∧ (pySortPosts "title" ("desc" == "desc") [p1, p2]).Perm [p1, p2]
    ∧ ("desc" = "asc" → (pySortPosts "title" false [p1, p2]).Sorted (ascLe "title"))
    ∧ ("desc" = "desc" → (pySortPosts "title" true [p1, p2]).Sorted (descLe "title"))
    ∧ ∀ k, (pySortPosts "title" ("desc" == "desc") [p1, p2]).filter
          (fun p => sortKey "title" p == k)
        = ([p1, p2] : List Post).filter (fun p => sortKey "title" p == k))
    ∧ (getPosts [p1, p2] (some "title") (some "desc") (some "1") (some "10")).1 =
        .ok [p2, p1] := by
  have h := getPosts_sortField [p1, p2] "title" "desc" (Or.inl rfl) (Or.inr rfl)
    "1" "10" 1 10 rfl rfl
  refine ⟨h, ?_⟩
  rw [h.1]
  show Except.ok (pySlice (pySortPosts "title" ("desc" == "desc") [p1, p2])
      ((1 - 1) * 10) ((1 - 1) * 10 + 10)) = Except.ok [p2, p1]
  exact congrArg Except.ok (by decide)

/-! ## C6: search semantics -/

theorem pyLower_eq_empty_iff (s : String) : pyLower s = "" ↔ s = "" := by
  constructor
  · intro h
    have hd : s.data.map Char.toLower = [] := congrArg String.data h
    have hs : s.data = [] := List.map_eq_nil_iff.mp hd
    cases s with
    | mk d => cases hs; rfl
  · rintro rfl
    rfl

theorem pyIn_iff (a b : String) : pyIn a b = true ↔ a.data <:+: b.data := by
  rw [pyIn]
  exact decide_eq_true_iff

theorem searchCond_iff (tq cq : String) (p : Post) :
    ((if pyLower tq != "" then pyIn (pyLower tq) (pyLower p.title) else false)
      || (if pyLower cq != "" then pyIn (pyLower cq) (pyLower p.content) else false)) = true
    ↔ ((tq ≠ "" ∧ ciSubstr tq p.title) ∨ (cq ≠ "" ∧ ciSubstr cq p.content)) := by
  rw [Bool.or_eq_true]
  apply or_congr
  · by_cases h : tq = ""
    · subst h
      simp [show pyLower "" = "" from rfl]
    · have hne : (pyLower tq != "") = true :=
        bne_iff_ne.mpr (fun hh => h ((pyLower_eq_empty_iff tq).mp hh))
      simp only [hne, if_true, pyIn_iff, ciSubstr]
      exact ⟨fun hh => ⟨h, hh⟩, fun hh => hh.2⟩
  · by_cases h : cq = ""
    · subst h
      simp [show pyLower "" = "" from rfl]
    · have hne : (pyLower cq != "") = true :=
        bne_iff_ne.mpr (fun hh => h ((pyLower_eq_empty_iff cq).mp hh))
      simp only [hne, if_true, pyIn_iff, ciSubstr]
      exact ⟨fun hh => ⟨h, hh⟩, fun hh => hh.2⟩

/-- C6: search returns, in collection order, exactly the posts for
which the title query is non-empty and a case-insensitive substring of
the post's title, or the content query is non-empty and a
case-insensitive substring of the post's content; when both queries are
empty the result is empty even on a non-empty collection, and the read
leaves the store unchanged. -/
theorem searchPosts_spec (posts : List Post) (tq cq : String) :
    ∃ l, searchPosts posts (some tq) (some cq) = (.ok l, posts)
      ∧ l.Sublist posts
      ∧ (∀ p, p ∈ l ↔ p ∈ posts ∧
          ((tq ≠ "" ∧ ciSubstr tq p.title) ∨ (cq ≠ "" ∧ ciSubstr cq p.content)))
      ∧ (tq = "" → cq = "" → l = []) := by
  refine ⟨_, rfl, List.filter_sublist _, fun p => ?_, fun ht hc => ?_⟩
  · rw [List.mem_filter, searchCond_iff]
    simp only [Option.getD_some]
  · subst ht
    subst hc
    simp [pyLower]

/-- Witness for C6 on the seed collection: searching title "second"
(content query empty) matches exactly the second post, case-insensitively,
and the all-empty search returns the empty sequence. -/
theorem searchPosts_spec_witness :
    (∃ l, searchPosts [p1, p2] (some "second") (some "") = (.ok l, [p1, p2])
      ∧ l.Sublist [p1, p2]
      ∧ (∀ p, p ∈ l ↔ p ∈ ([p1, p2] : List Post) ∧
          (("second" ≠ "" ∧ ciSubstr "second" p.title)
            ∨ ("" ≠ "" ∧ ciSubstr "" p.content)))
      ∧ ("second" = "" → "" = "" → l = []))
    ∧ (searchPosts [p1, p2] (some "second") (some "")).1 = .ok [p2]
    ∧ (searchPosts [p1, p2] (some "") (some "")).1 = .ok [] :=
  ⟨searchPosts_spec [p1, p2] "second" "", rfl, rfl⟩

/-! ## C10: written posts carry exactly the fields id, title, content

To reason about field sets, add_post and update_post are also embedded
at the JSON-dict level: posts and request bodies are association lists
of string keys to JSON scalar values, exactly as the handlers see them,
so extra keys in a request body or in a stored post are representable. -/

/-- A JSON scalar stored in a post object or request body. -/
inductive DVal where
  | i : Int → DVal
  | s : String → DVal
deriving DecidableEq

/-- A JSON object: association list of string keys. -/
abbrev Dict := List (String × DVal)

/-- Python truthiness of a JSON scalar. -/
def DVal.truthy : DVal → Bool
  | .i n => n != 0
  | .s str => str != ""

/-- The test field not in data or not data[field] at the dict level. -/
def fieldMissingD (data : Dict) (f : String) : Bool :=
  match data.lookup f with
  | none => true
  | some v => !v.truthy

/-- post["id"] read as an integer: none models the exception Python
raises in add_post when a stored post lacks an integer id usable by
max(...) + 1. -/
def dictId (d : Dict) : Option Int :=
  match d.lookup "id" with
  | some (.i n) => some n
  | _ => none

/-- max((post["id"] for post in posts), default=0) at the dict level;
none models the exception when some stored post has no integer id. -/
def maxIdD (posts : List Dict) : Option Int :=
  (posts.mapM dictId).map (fun ids =>
    match ids with
    | [] => 0
    | x :: xs => xs.foldl max x)

/-- Dict-level embedding of add_post: the created object is built with
exactly the keys id, title and content, taking the title and content
values from the body and discarding every other key. -/
def addPostD (posts : List Dict) (data : Dict) : Except Err Dict × List Dict :=
  let missing := ["title", "content"].filter (fieldMissingD data)
  if missing.isEmpty then
    match maxIdD posts, data.lookup "title", data.lookup "content" with
    | some m, some tv, some cv =>
      let newPost : Dict := [("id", .i (m + 1)), ("title", tv), ("content", cv)]
      (.ok newPost, posts ++ [newPost])
    | _, _, _ => (.error .internal, posts)
  else
    (.error (.validation ("Missing field: " ++ String.intercalate ", " missing)), posts)

/-- post['id'] == post_id at the dict level: none models the KeyError
on a post without an id key; a non-integer id compares unequal to the
integer post_id, as in Python. -/
def dictMatchesId (d : Dict) (postId : Int) : Option Bool :=
  match d.lookup "id" with
  | none => none
  | some (.i n) => some (n == postId)
  | some (.s _) => some false

/-- The enumerate loop of update_post at the dict level: the matching
post is replaced wholesale by newPost; the outer none models a KeyError
during the scan, some none a scan that found no match. -/
def updateLoopD (postId : Int) (newPost : Dict) :
    List Dict → Option (Option (List Dict))
  | [] => some none
  | d :: ds =>
    match dictMatchesId d postId with
    | none => none
    | some true => some (some (newPost :: ds))
    | some false => (updateLoopD postId newPost ds).map (Option.map (fun l => d :: l))

/-- Dict-level embedding of update_post: validation checks only key
presence, and the replacement object is built with exactly the keys id,
title and content. -/
def updatePostD (posts : List Dict) (postId : Int) (data : Dict) :
    Except Err Dict × List Dict :=
  if data.isEmpty || (data.lookup "title").isNone || (data.lookup "content").isNone then
    (.error (.validation "Missing title or content"), posts)
  else
    let newPost : Dict := [("id", .i postId),
      ("title", (data.lookup "title").getD (.s "")),
      ("content", (data.lookup "content").getD (.s ""))]
    match updateLoopD postId newPost posts with
    | none => (.error .internal, posts)
    | some none => (.error (.notFound "Post not found"), posts)
    | some (some posts2) => (.ok newPost, posts2)

theorem updateLoopD_found (postId : Int) (np : Dict) :
    ∀ posts posts2, updateLoopD postId np posts = some (some posts2) →
      ∃ i, i < posts.length ∧ posts2 = posts.set i np := by
  intro posts
  induction posts with
  | nil =>
    intro posts2 h
    simp [updateLoopD] at h
  | cons d ds ih =>
    intro posts2 h
    rw [updateLoopD] at h
    cases hm : dictMatchesId d postId with
    | none => rw [hm] at h; cases h
    | some b =>
      rw [hm] at h
      cases b with
      | true =>
        cases h
        exact ⟨0, by simp, rfl⟩
      | false =>
        simp only [Option.map_eq_some'] at h
        rcases h with ⟨o, ho, hmap⟩
        cases o with
        | none => simp at hmap
        | some l =>
          obtain ⟨i, hi, rfl⟩ := ih l ho
          have hmap' : d :: ds.set i np = posts2 := by simpa using hmap
          exact ⟨i + 1, by simpa using Nat.succ_lt_succ hi,
            by rw [← hmap', List.set_cons_succ]⟩

/-- C10: every post written into the store by create or update has
exactly the three keys id, title and content in this order: extra keys
in the request body are discarded, create appends exactly the new
object, and update replaces the matched stored object wholesale, so no
stale extra keys survive. -/
theorem written_posts_exact_fields (posts : List Dict) (data : Dict) (postId : Int) :
    (∀ p, (addPostD posts data).1 = .ok p →
      p.map Prod.fst = ["id", "title", "content"]
      ∧ (addPostD posts data).2 = posts ++ [p])
    ∧ (∀ p, (updatePostD posts postId data).1 = .ok p →
      p.map Prod.fst = ["id", "title", "content"]
      ∧ ∃ i, i < posts.length ∧ (updatePostD posts postId data).2 = posts.set i p) := by
  constructor
  · intro p h
    cases hm : (["title", "content"].filter (fieldMissingD data)).isEmpty with
    | false => rw [addPostD] at h; simp [hm] at h
    | true =>
      rw [addPostD] at h ⊢
      simp only [hm, if_true] at h ⊢
      cases hmax : maxIdD posts with
      | none => simp [hmax] at h
      | some m =>
        cases htv : data.lookup "title" with
        | none => simp [hmax, htv] at h
        | some tv =>
          cases hcv : data.lookup "content" with
          | none => simp [hmax, htv, hcv] at h
          | some cv =>
            simp only [hmax, htv, hcv] at h ⊢
            cases h
            exact ⟨rfl, rfl⟩
  · intro p h
    cases hv : (data.isEmpty || (data.lookup "title").isNone
        || (data.lookup "content").isNone) with
    | true => rw [updatePostD] at h; simp [hv] at h
    | false =>
      rw [updatePostD] at h ⊢
      simp only [hv, Bool.false_eq_true, if_false] at h ⊢
      cases hl : updateLoopD postId [("id", .i postId),
          ("title", (data.lookup "title").getD (.s "")),
          ("content", (data.lookup "content").getD (.s ""))] posts with
      | none => simp [hl] at h
      | some o =>
        cases o with
        | none => simp [hl] at h
        | some posts2 =>
          simp only [hl] at h ⊢
          cases h
          obtain ⟨i, hi, rfl⟩ := updateLoopD_found _ _ posts posts2 hl
          exact ⟨rfl, i, hi, rfl⟩

/-- Witness for C10: a body with the extra key junk and a stored post
with the extra key extra; the created and updated objects both carry
exactly id, title, content, and update discards the stored extra key by
wholesale replacement. -/
theorem written_posts_exact_fields_witness :
    (([("id", DVal.i 2), ("title", DVal.s "T"), ("content", DVal.s "C")] : Dict).map
        Prod.fst = ["id", "title", "content"]
      ∧ (addPostD [[("id", DVal.i 1), ("title", DVal.s "a"),
            ("content", DVal.s "b"), ("extra", DVal.s "x")]]
          [("title", DVal.s "T"), ("content", DVal.s "C"), ("junk", DVal.i 7)]).2 =
        [[("id", DVal.i 1), ("title", DVal.s "a"),
            ("content", DVal.s "b"), ("extra", DVal.s "x")],
         [("id", DVal.i 2), ("title", DVal.s "T"), ("content", DVal.s "C")]])
    ∧ (([("id", DVal.i 1), ("title", DVal.s "T"), ("content", DVal.s "C")] : Dict).map
        Prod.fst = ["id", "title", "content"]
      ∧ ∃ i, i < ([[("id", DVal.i 1), ("title", DVal.s "a"),
            ("content", DVal.s "b"), ("extra", DVal.s "x")]] : List Dict).length
        ∧ (updatePostD [[("id", DVal.i 1), ("title", DVal.s "a"),
              ("content", DVal.s "b"), ("extra", DVal.s "x")]] 1
            [("title", DVal.s "T"), ("content", DVal.s "C"), ("junk", DVal.i 7)]).2 =
          ([[("id", DVal.i 1), ("title", DVal.s "a"),
              ("content", DVal.s "b"), ("extra", DVal.s "x")]] : List Dict).set i
            [("id", DVal.i 1), ("title", DVal.s "T"), ("content", DVal.s "C")]) := by
  constructor
  · exact (written_posts_exact_fields
      [[("id", DVal.i 1), ("title", DVal.s "a"), ("content", DVal.s "b"),
        ("extra", DVal.s "x")]]
      [("title", DVal.s "T"), ("content", DVal.s "C"), ("junk", DVal.i 7)] 1).1
      [("id", DVal.i 2), ("title", DVal.s "T"), ("content", DVal.s "C")] rfl
  · exact (written_posts_exact_fields
      [[("id", DVal.i 1), ("title", DVal.s "a"), ("content", DVal.s "b"),
        ("extra", DVal.s "x")]]
      [("title", DVal.s "T"), ("content", DVal.s "C"), ("junk", DVal.i 7)] 1).2
      [("id", DVal.i 1), ("title", DVal.s "T"), ("content", DVal.s "C")] rfl

end Masterblog
